import Mathlib

/-!
# Verification of the VCF allele-count / frequency pipeline

Shallow embedding of `src/cryptosporidium_host_adaptation/core.py`:
the variant-table loader (`read_vcf`), the multiallelic expander
(`find_index`, `expand_multiallelic_variants`), the frequency calculator
(`compute_frequencies`) and the annotation extractor (`extract_first_ann`,
`add_ann_info_to_df`).

Modelling conventions:
- Python strings are `List Char`; the helper `cl` converts a Lean string
  literal to its character list.
- Python exceptions are the `PyError` type carried in `Except`:
  `IndexError` for out-of-range list indexing, `ValueError` for the
  descriptive data-format errors (including `int()` parse failures), and
  the unbound-local-variable failure of `read_vcf` as `nameError`.
- `int()` is modelled on optionally signed digit strings (the only shapes
  a VCF count field can take); every other input is a `ValueError`,
  as in Python for non-numeric text.
- pandas float division (`AO / DP`) is modelled by `PyFloat`: exact
  rationals for a nonzero denominator, and the IEEE non-finite results
  (`inf`, `-inf`, `nan`) for a zero denominator.  With 64-bit integer
  counts the quotient can never overflow a double, so a nonzero
  denominator always yields a finite float.
- A DataFrame is a `List` of row structures; columns are structure
  fields, sample columns a `List` aligned with the table's sample names.
-/

deriving instance DecidableEq for Except

/-- Characters of a string literal (Python `str` as `List Char`). -/
def cl (s : String) : List Char := s.data

/-- Python `s.split(sep)` for a single-character separator: splits at every
occurrence, keeping empty chunks, and returns `[[]]` on the empty string. -/
def splitOnChar (sep : Char) : List Char → List (List Char)
  | [] => [[]]
  | c :: cs =>
    match splitOnChar sep cs with
    | [] => [[]]
    | h :: t => if c = sep then [] :: h :: t else (c :: h) :: t

/-- The suffix of `s` after the first occurrence of the (nonempty) pattern
`sep`, or `none` when `sep` does not occur: Python
`s[s.find(sep) + len(sep):]` guarded by `sep in s`. -/
def dropAfterSeq (sep : List Char) : List Char → Option (List Char)
  | [] => none
  | c :: cs =>
    if sep.isPrefixOf (c :: cs) then some (List.drop sep.length (c :: cs))
    else dropAfterSeq sep cs

/-- The prefix of `s` before the first occurrence of `sep` (all of `s` when
`sep` does not occur). -/
def upToSeq (sep : List Char) : List Char → List Char
  | [] => []
  | c :: cs => if sep.isPrefixOf (c :: cs) then [] else c :: upToSeq sep cs

/-- Python `s.strip()` (ASCII whitespace suffices for VCF lines). -/
def pyStrip (s : List Char) : List Char :=
  ((s.dropWhile Char.isWhitespace).reverse.dropWhile Char.isWhitespace).reverse

/-- The Python exceptions the embedded pipeline can raise. -/
inductive PyError where
  /-- `IndexError`: list index out of range. -/
  | indexError : PyError
  /-- `UnboundLocalError` / `NameError`: a variable used before assignment. -/
  | nameError : PyError
  /-- `ValueError` with its message: the descriptive data-format errors. -/
  | valueError (msg : String) : PyError
deriving DecidableEq, Repr

/-- The spec's "data-format error" is a raised `ValueError`. -/
def isDataFormatError : PyError → Bool
  | .valueError _ => true
  | _ => false

/-- Numeric value of a digit character. -/
def digitVal (c : Char) : Nat := c.toNat - 48

/-- Parses a nonempty all-digit string as a natural number. -/
def parseNatDigits (cs : List Char) : Option Nat :=
  if cs ≠ [] ∧ cs.all Char.isDigit then
    some (cs.foldl (fun a c => 10 * a + digitVal c) 0)
  else none

/-- Python `int(s)` on a count token: optional sign followed by digits;
anything else raises `ValueError`. -/
def pyInt (cs : List Char) : Except PyError Int :=
  match cs with
  | [] => .error (.valueError "invalid literal for int with base 10")
  | c :: rest =>
    if c = '-' then
      match parseNatDigits rest with
      | some n => .ok (-(n : Int))
      | none => .error (.valueError "invalid literal for int with base 10")
    else if c = '+' then
      match parseNatDigits rest with
      | some n => .ok ((n : Int))
      | none => .error (.valueError "invalid literal for int with base 10")
    else
      match parseNatDigits (c :: rest) with
      | some n => .ok ((n : Int))
      | none => .error (.valueError "invalid literal for int with base 10")

/-- Python `l[n]` for a non-negative index: `IndexError` out of range. -/
def pyIndex {α : Type} (l : List α) (n : Nat) : Except PyError α :=
  match l.get? n with
  | some x => .ok x
  | none => .error .indexError

/-- Sequential effectful map over `Except`: stops at the first error, as a
Python `for` loop raising out of the loop body does. -/
def mapE {α β : Type} (f : α → Except PyError β) : List α → Except PyError (List β)
  | [] => .ok []
  | x :: xs => do
    let y ← f x
    let ys ← mapE f xs
    .ok (y :: ys)

/-- `find_index(format_value, field)` from core.py: position of `field` in
the colon-split `format_value`, `None` when absent. -/
def find_index (format_value : List Char) (field : List Char) : Option Nat :=
  (splitOnChar ':' format_value).findIdx? (fun x => x == field)

/-- One data row of the loaded VCF table: the fixed 9-column layout
(#CHROM, POS, ID, REF, ALT, QUAL, FILTER, INFO, FORMAT) followed by one
colon-delimited value string per sample column. -/
structure VcfRow where
  chrom : String
  pos : String
  vid : String
  ref : String
  alt : List Char
  qual : String
  filt : String
  info : List Char
  format : List Char
  samples : List (List Char)
deriving DecidableEq, Repr

/-- Per-sample counts of one expanded row, in the code's assignment order:
`RO_sample`, `DP_sample`, `AO_sample`. -/
structure SampleCounts where
  ro : Int
  dp : Int
  ao : Int
deriving DecidableEq, Repr

/-- One output row of `expand_multiallelic_variants`: #CHROM, POS, REF, the
single alternate allele, its TYPE entry, and the per-sample counts. -/
structure ExpandedRow where
  chrom : String
  pos : String
  ref : String
  alt : List Char
  info_type : List Char
  counts : List SampleCounts
deriving DecidableEq, Repr

/-- `row['INFO'].split('TYPE=')[1].split(';')[0].split(',')` from core.py:
the text between the first `TYPE=` and the next `TYPE=` occurrence, cut at
the first semicolon, split on commas.  Indexing `[1]` raises `IndexError`
when `TYPE=` does not occur in the attribute bag. -/
def infoTypes (info : List Char) : Except PyError (List (List Char)) :=
  match dropAfterSeq (cl "TYPE=") info with
  | none => .error .indexError
  | some suffix =>
    .ok (splitOnChar ',' ((splitOnChar ';' (upToSeq (cl "TYPE=") suffix)).headD []))

/-- The conditional expression
`int(tok) if tok != '.' else 0` of core.py lines 138-139. -/
def tokValue (tok : List Char) : Except PyError Int :=
  if tok = cl "." then pure 0 else pyInt tok

/-- The conditional expression
`int(ao_values[i]) if i < len(ao_values) and ao_values[i] != '.' else 0`
of core.py line 143. -/
def aoValue (ao_values : List (List Char)) (i : Nat) : Except PyError Int :=
  if h : i < ao_values.length then
    if ao_values.get ⟨i, h⟩ = cl "." then pure 0
    else pyInt (ao_values.get ⟨i, h⟩)
  else pure 0

/-- The per-sample extraction of one expanded row (core.py lines 133-143):
split the sample value on colons, take `RO` and `DP` at the located
positions (a `'.'` token becomes 0), split the `AO` token on commas and
take entry `i` (out-of-range or `'.'` becomes 0). -/
def sampleCounts (ro_index ao_index dp_index i : Nat) (s : List Char) :
    Except PyError SampleCounts := do
  let sample_values := splitOnChar ':' s
  let roTok ← pyIndex sample_values ro_index
  let roV ← tokValue roTok
  let dpTok ← pyIndex sample_values dp_index
  let dpV ← tokValue dpTok
  let aoTok ← pyIndex sample_values ao_index
  let aoV ← aoValue (splitOnChar ',' aoTok) i
  pure ⟨roV, dpV, aoV⟩

/-- The body of the row loop of `expand_multiallelic_variants`: split ALT on
commas, read the TYPE list from INFO, and emit one `ExpandedRow` per
`(alt, type)` pair of the (shortest-)zip of the two lists. -/
def expandRow (ro_index ao_index dp_index : Nat) (row : VcfRow) :
    Except PyError (List ExpandedRow) := do
  let alt_alleles := splitOnChar ',' row.alt
  let info_type ← infoTypes row.info
  mapE
    (fun p => do
      let counts ← mapE (sampleCounts ro_index ao_index dp_index p.1) row.samples
      pure (ExpandedRow.mk row.chrom row.pos row.ref p.2.1 p.2.2 counts))
    (List.enum (alt_alleles.zip info_type))

/-- `expand_multiallelic_variants(df_vcf)` from core.py: locate RO, AO and
DP once, in the FORMAT value of the *first* row (`IndexError` on an empty
table); raise the descriptive `ValueError` when any of the three is
absent; then expand every row and concatenate the emitted rows in order. -/
def expand_multiallelic_variants (df_vcf : List VcfRow) :
    Except PyError (List ExpandedRow) := do
  let firstRow ← pyIndex df_vcf 0
  let format_example := firstRow.format
  match find_index format_example (cl "RO"), find_index format_example (cl "AO"),
      find_index format_example (cl "DP") with
  | some ro_index, some ao_index, some dp_index => do
    let expanded_rows ← mapE (expandRow ro_index ao_index dp_index) df_vcf
    pure expanded_rows.flatten
  | _, _, _ => .error (.valueError "RO, AO, or DP field not found in FORMAT column.")

/-- A pandas float64 cell, modelled exactly: a rational for a finite value,
and the three non-finite IEEE values. -/
inductive PyFloat where
  | num (q : ℚ) : PyFloat
  | posInf : PyFloat
  | negInf : PyFloat
  | nan : PyFloat
deriving DecidableEq, Repr

/-- `true` exactly on finite floats. -/
def isFinitePF : PyFloat → Bool
  | .num _ => true
  | _ => false

/-- pandas division of two integer cells: `a / 0` is `inf`, `-inf` or `nan`
according to the sign of `a`; otherwise the exact quotient. -/
def pdiv (a b : Int) : PyFloat :=
  if b = 0 then
    if 0 < a then .posInf else if a < 0 then .negInf else .nan
  else .num ((a : ℚ) / (b : ℚ))

/-- One row of `compute_frequencies`' output: the four identifying columns
and one `AF_sample` value per sample. -/
structure FreqRow where
  chrom : String
  pos : String
  ref : String
  alt : List Char
  afs : List PyFloat
deriving DecidableEq, Repr

/-- `compute_frequencies(df_counts)` from core.py: copy #CHROM, POS, REF,
ALT and add `AF_sample = AO_sample / DP_sample` for every sample.  Total:
never raises, zero depth flows into the non-finite float. -/
def compute_frequencies (df_counts : List ExpandedRow) : List FreqRow :=
  df_counts.map (fun r =>
    ⟨r.chrom, r.pos, r.ref, r.alt, r.counts.map (fun c => pdiv c.ao c.dp)⟩)

/-- The record `extract_first_ann` builds from the first annotation entry:
keys `allele`, `type`, `impact`, `gene_id` of the Python dict. -/
structure AnnRecord where
  allele : List Char
  vtype : List Char
  impact : List Char
  gene_id : List Char
deriving DecidableEq, Repr

/-- The pipe-separated sub-fields of the first annotation entry, given the
suffix of the INFO string after the first `ANN=`: cut at the first
semicolon, split on commas, keep entry 0, split it on pipes
(core.py lines 196-210). -/
def annFieldsOf (afterMarker : List Char) : List (List Char) :=
  splitOnChar '|'
    ((splitOnChar ',' ((splitOnChar ';' afterMarker).headD [])).headD [])

/-- The `if len(ann_fields) >= 4` block of `extract_first_ann`: the record
from sub-fields 0-3, ignoring everything beyond, `None` under 4 fields. -/
def firstAnnRecord (ann_fields : List (List Char)) : Option AnnRecord :=
  match ann_fields with
  | a :: b :: c :: d :: _ => some ⟨a, b, c, d⟩
  | _ => none

/-- `extract_first_ann(info_field)` from core.py: `None` when `ANN=` does
not occur as a substring; otherwise take the whole suffix after the first
occurrence and build the record from its first entry's sub-fields. -/
def extract_first_ann (info_field : List Char) : Option AnnRecord :=
  match dropAfterSeq (cl "ANN=") info_field with
  | none => none
  | some afterMarker => firstAnnRecord (annFieldsOf afterMarker)

/-- An input row of `add_ann_info_to_df`: the INFO cell plus the row's
pre-existing column values, kept opaque. -/
structure InfoRow where
  other : List String
  info : List Char
deriving DecidableEq, Repr

/-- An output row of `add_ann_info_to_df`: the input row plus the four new
annotation columns, in the code's creation order. -/
structure AnnotatedRow where
  other : List String
  info : List Char
  variant_type : Option (List Char)
  impact : Option (List Char)
  gene_id : Option (List Char)
  allele : Option (List Char)
deriving DecidableEq, Repr

/-- `add_ann_info_to_df(df)` from core.py: initialise the four new columns
to `None` on every row, then overwrite them row by row from
`extract_first_ann` where it returns a (necessarily truthy) dict. -/
def add_ann_info_to_df (df : List InfoRow) : List AnnotatedRow :=
  df.map (fun r =>
    match extract_first_ann r.info with
    | some a => ⟨r.other, r.info, some a.vtype, some a.impact, some a.gene_id, some a.allele⟩
    | none => ⟨r.other, r.info, none, none, none, none⟩)

/-- `read_vcf(vcf_file)` from core.py, on the file's list of lines: scan
for the first line starting with `#CHROM` and tab-split it (stripped) as
the column names — when no such line exists the `header` variable is never
bound and its use raises `UnboundLocalError` (`nameError` here); then parse
the body as pandas does with `comment='#'`: truncate every line at its
first `#`, drop lines left empty, tab-split the rest. -/
def read_vcf (lines : List (List Char)) :
    Except PyError (List (List Char) × List (List (List Char))) :=
  match lines.find? (fun l => (cl "#CHROM").isPrefixOf l) with
  | none => .error .nameError
  | some headerLine =>
    let header := splitOnChar '\t' (pyStrip headerLine)
    let body := ((lines.map (upToSeq (cl "#"))).filter (· ≠ [])).map (splitOnChar '\t')
    .ok (header, body)

/-! ## Validity notions used as hypotheses

A VCF count token is a non-negative decimal numeral or the missing marker
`"."`; the AO token may hold several, comma-separated.  `cleanToken`
captures exactly that shape, and `cleanTable` lifts it to every sub-field
of every sample cell of a table. -/

/-- Every comma-separated piece of the token is `"."` or a nonempty digit
string (the shape of RO/DP/AO sub-fields in a well-formed VCF). -/
def cleanToken (t : List Char) : Prop :=
  ∀ sub ∈ splitOnChar ',' t, sub = cl "." ∨ (sub ≠ [] ∧ sub.all Char.isDigit)

/-- Every colon-separated token of the sample cell is clean. -/
def cleanSample (s : List Char) : Prop :=
  ∀ t ∈ splitOnChar ':' s, cleanToken t

/-- Every sample cell of every row is clean. -/
def cleanTable (df : List VcfRow) : Prop :=
  ∀ r ∈ df, ∀ s ∈ r.samples, cleanSample s

/-- Both expander rows and their claimed TYPE lists: rows whose
comma-split ALT list and computed TYPE list have equal length (the spec's
data-model invariant for a valid table). -/
def typeAligned (df : List VcfRow) : Prop :=
  ∀ r ∈ df, (infoTypes r.info).map List.length =
    .ok (splitOnChar ',' r.alt).length

/-- Rows of two tables that agree on every column except FORMAT. -/
def sameExceptFormat (a b : VcfRow) : Prop :=
  a.chrom = b.chrom ∧ a.pos = b.pos ∧ a.vid = b.vid ∧ a.ref = b.ref ∧
  a.alt = b.alt ∧ a.qual = b.qual ∧ a.filt = b.filt ∧ a.info = b.info ∧
  a.samples = b.samples

/-! ## General lemmas about the embedding's building blocks -/

theorem except_bind_ok {α β : Type} {x : Except PyError α}
    {f : α → Except PyError β} {b : β} (h : (x >>= f) = .ok b) :
    ∃ a, x = .ok a ∧ f a = .ok b := by
  cases x with
  | ok a => exact ⟨a, rfl, h⟩
  | error e => simp [Bind.bind, Except.bind] at h

theorem except_bind_error {α β : Type} {e : PyError}
    {f : α → Except PyError β} :
    ((Except.error e : Except PyError α) >>= f) = .error e := rfl

theorem mapE_ok_forall₂ {α β : Type} {f : α → Except PyError β} :
    ∀ {xs : List α} {ys : List β}, mapE f xs = .ok ys →
      List.Forall₂ (fun x y => f x = .ok y) xs ys := by
  intro xs
  induction xs with
  | nil => intro ys h; simp only [mapE, Except.ok.injEq] at h; subst h; exact .nil
  | cons x xs ih =>
    intro ys h
    simp only [mapE] at h
    obtain ⟨y, hy, h2⟩ := except_bind_ok h
    obtain ⟨ys', hys', h3⟩ := except_bind_ok h2
    simp only [Except.ok.injEq] at h3
    subst h3
    exact .cons hy (ih hys')

theorem mapE_ok_length {α β : Type} {f : α → Except PyError β}
    {xs : List α} {ys : List β} (h : mapE f xs = .ok ys) :
    ys.length = xs.length :=
  (mapE_ok_forall₂ h).length_eq.symm

theorem forall₂_mem_right {α β : Type} {R : α → β → Prop} :
    ∀ {xs : List α} {ys : List β}, List.Forall₂ R xs ys →
      ∀ y ∈ ys, ∃ x ∈ xs, R x y := by
  intro xs ys h
  induction h with
  | nil => intro y hy; cases hy
  | cons hab _ ih =>
    intro y hy
    rcases List.mem_cons.mp hy with rfl | hy
    · exact ⟨_, List.mem_cons_self .., hab⟩
    · obtain ⟨x, hx, hr⟩ := ih y hy
      exact ⟨x, List.mem_cons_of_mem _ hx, hr⟩

theorem mapE_mem {α β : Type} {f : α → Except PyError β}
    {xs : List α} {ys : List β} (h : mapE f xs = .ok ys) :
    ∀ y ∈ ys, ∃ x ∈ xs, f x = .ok y :=
  forall₂_mem_right (mapE_ok_forall₂ h)

theorem mapE_ok_of_forall {α β : Type} {f : α → Except PyError β} :
    ∀ {xs : List α}, (∀ x ∈ xs, ∃ y, f x = .ok y) →
      ∃ ys, mapE f xs = .ok ys := by
  intro xs
  induction xs with
  | nil => exact fun _ => ⟨[], rfl⟩
  | cons x xs ih =>
    intro h
    obtain ⟨y, hy⟩ := h x (List.mem_cons_self ..)
    obtain ⟨ys, hys⟩ := ih (fun a ha => h a (List.mem_cons_of_mem _ ha))
    exact ⟨y :: ys, by simp [mapE, hy, hys, Bind.bind, Except.bind]⟩

theorem mapE_append_error {α β : Type} {f : α → Except PyError β}
    {e : PyError} {b : α} (hb : f b = .error e) :
    ∀ {xs : List α} {ys : List β}, mapE f xs = .ok ys →
      ∀ zs, mapE f (xs ++ b :: zs) = .error e := by
  intro xs
  induction xs with
  | nil =>
    intro ys _ zs
    simp [mapE, hb, Bind.bind, Except.bind]
  | cons x xs ih =>
    intro ys h zs
    simp only [mapE] at h
    obtain ⟨y, hy, h2⟩ := except_bind_ok h
    obtain ⟨ys', hys', _⟩ := except_bind_ok h2
    simp [mapE, List.cons_append, hy, ih hys' zs, Bind.bind, Except.bind]

theorem mapE_congr {α β : Type} {f g : α → Except PyError β} :
    ∀ {xs ys : List α}, List.Forall₂ (fun a b => f a = g b) xs ys →
      mapE f xs = mapE g ys := by
  intro xs ys h
  induction h with
  | nil => rfl
  | cons hab _ ih => simp only [mapE, hab, ih]

theorem splitOnChar_ne_nil (sep : Char) (l : List Char) :
    splitOnChar sep l ≠ [] := by
  cases l with
  | nil => simp [splitOnChar]
  | cons c cs =>
    simp only [splitOnChar]
    cases splitOnChar sep cs with
    | nil => simp
    | cons h t =>
      by_cases hc : c = sep <;> simp [hc]

theorem pyInt_neg_head {t : List Char} {v : Int}
    (h : pyInt t = .ok v) (hv : v < 0) : ∃ rest, t = '-' :: rest := by
  match t with
  | [] => simp [pyInt] at h
  | c :: rest =>
    by_cases hc : c = '-'
    · exact ⟨rest, by rw [hc]⟩
    · exfalso
      simp only [pyInt] at h
      rw [if_neg hc] at h
      by_cases hp : c = '+'
      · rw [if_pos hp] at h
        cases hpn : parseNatDigits rest with
        | none => rw [hpn] at h; cases h
        | some n => rw [hpn] at h; cases h; omega
      · rw [if_neg hp] at h
        cases hpn : parseNatDigits (c :: rest) with
        | none => rw [hpn] at h; cases h
        | some n => rw [hpn] at h; cases h; omega

theorem cleanToken_pyInt_nonneg {t : List Char} {v : Int}
    (hc : cleanToken t) (h : pyInt t = .ok v) : 0 ≤ v := by
  by_contra hlt
  push_neg at hlt
  obtain ⟨rest, rfl⟩ := pyInt_neg_head h hlt
  cases hs : splitOnChar ',' rest with
  | nil => exact splitOnChar_ne_nil ',' rest hs
  | cons hd tl =>
    have hmem : ('-' :: hd) ∈ splitOnChar ',' ('-' :: rest) := by
      simp only [splitOnChar, hs]
      rw [if_neg (by decide)]
      exact List.mem_cons_self ..
    rcases hc _ hmem with heq | ⟨_, hdig⟩
    · exact absurd heq (by simp [cl])
    · have : ('-').isDigit = true := by
        have := List.all_eq_true.mp hdig '-' (List.mem_cons_self ..)
        exact this
      simp at this

theorem pyInt_digits_nonneg {t : List Char} {v : Int}
    (hdig : t.all Char.isDigit) (h : pyInt t = .ok v) : 0 ≤ v := by
  by_contra hlt
  push_neg at hlt
  obtain ⟨rest, rfl⟩ := pyInt_neg_head h hlt
  have : ('-').isDigit = true :=
    List.all_eq_true.mp hdig '-' (List.mem_cons_self ..)
  simp at this

theorem firstAnnRecord_short {l : List (List Char)} (h : l.length < 4) :
    firstAnnRecord l = none := by
  match l with
  | [] => rfl
  | [_] => rfl
  | [_, _] => rfl
  | [_, _, _] => rfl
  | _ :: _ :: _ :: _ :: _ => simp at h; omega

theorem firstAnnRecord_none_iff (l : List (List Char)) :
    firstAnnRecord l = none ↔ l.length < 4 := by
  match l with
  | [] => simp [firstAnnRecord]
  | [_] => simp [firstAnnRecord]
  | [_, _] => simp [firstAnnRecord]
  | [_, _, _] => simp [firstAnnRecord]
  | _ :: _ :: _ :: _ :: _ => simp [firstAnnRecord]

theorem pdiv_nonfinite_iff (a b : Int) :
    isFinitePF (pdiv a b) = false ↔ b = 0 := by
  unfold pdiv
  by_cases hb : b = 0
  · by_cases h1 : 0 < a
    · simp [hb, h1, isFinitePF]
    · by_cases h2 : a < 0 <;> simp [hb, h1, h2, isFinitePF]
  · simp [hb, isFinitePF]

theorem pdiv_of_ne_zero {a b : Int} (hb : b ≠ 0) :
    pdiv a b = .num ((a : ℚ) / (b : ℚ)) := by
  simp [pdiv, hb]

theorem dropAfterSeq_cons_of_ne {sep : List Char} {c : Char} {cs : List Char}
    (h : sep.isPrefixOf (c :: cs) = false) :
    dropAfterSeq sep (c :: cs) = dropAfterSeq sep cs := by
  simp [dropAfterSeq, h]

theorem dropAfterSeq_ann_step {c : Char} (cs : List Char)
    (h : ('A' == c) = false) :
    dropAfterSeq (cl "ANN=") (c :: cs) = dropAfterSeq (cl "ANN=") cs := by
  apply dropAfterSeq_cons_of_ne
  have he : cl "ANN=" = 'A' :: cl "NN=" := rfl
  rw [he]
  simp [List.isPrefixOf, h]

theorem dropAfterSeq_ann_here (rest : List Char) :
    dropAfterSeq (cl "ANN=") ('A' :: 'N' :: 'N' :: '=' :: rest) = some rest := by
  have hpre : (cl "ANN=").isPrefixOf ('A' :: 'N' :: 'N' :: '=' :: rest) = true := by
    have he : cl "ANN=" = ['A', 'N', 'N', '='] := rfl
    rw [he]
    simp [List.isPrefixOf]
  simp only [dropAfterSeq, hpre, if_true]
  rfl

/-- Sanity check: the spec's worked example — ALT `A,T`, `TYPE=snp,ins`,
FORMAT `RO:AO:DP`, sample `5:3,2:10` — expands to exactly two rows with
`(RO=5, DP=10, AO=3)` and `(RO=5, DP=10, AO=2)`. -/
theorem expand_worked_example :
    expand_multiallelic_variants
      [⟨"chr1", "100", ".", "G", cl "A,T", "50", "PASS",
        cl "DP=10;TYPE=snp,ins", cl "RO:AO:DP", [cl "5:3,2:10"]⟩] =
    .ok [⟨"chr1", "100", "G", cl "A", cl "snp", [⟨5, 10, 3⟩]⟩,
         ⟨"chr1", "100", "G", cl "T", cl "ins", [⟨5, 10, 2⟩]⟩] := by decide

/-! ## Claim theorems -/

/-- C3: for every row of the expanded table and every sample,
`compute_frequencies` produces exactly alternate-count / total-depth
(`AO / DP`), and that value is non-finite exactly when the sample's total
depth is 0.  `compute_frequencies` is a total function into `List FreqRow`,
so division by zero flows into the non-finite `PyFloat`, never an
exception. -/
theorem compute_frequencies_correct (df : List ExpandedRow) (j i : Nat)
    (r : ExpandedRow) (c : SampleCounts)
    (hj : df.get? j = some r) (hi : r.counts.get? i = some c) :
    (compute_frequencies df).length = df.length ∧
    ∃ fr, (compute_frequencies df).get? j = some fr ∧
      fr.afs.length = r.counts.length ∧
      fr.afs.get? i = some (pdiv c.ao c.dp) ∧
      (isFinitePF (pdiv c.ao c.dp) = false ↔ c.dp = 0) ∧
      (c.dp ≠ 0 → pdiv c.ao c.dp = .num ((c.ao : ℚ) / (c.dp : ℚ))) := by
  refine ⟨List.length_map .., ?_⟩
  refine ⟨⟨r.chrom, r.pos, r.ref, r.alt, r.counts.map (fun c => pdiv c.ao c.dp)⟩, ?_, ?_, ?_, ?_, ?_⟩
  · rw [compute_frequencies, List.get?_map, hj]; rfl
  · exact List.length_map ..
  · rw [List.get?_map, hi]; rfl
  · exact pdiv_nonfinite_iff c.ao c.dp
  · exact fun hb => pdiv_of_ne_zero hb

/-- Concrete expanded row used by the C3 witness (the spec's §8 example:
`RO=5, AO=3, DP=10`, frequency `3/10`). -/
def exRow3 : ExpandedRow :=
  ⟨"chr1", "100", "G", cl "A", cl "snp", [⟨5, 10, 3⟩]⟩

theorem compute_frequencies_correct_witness :
    (compute_frequencies [exRow3]).length = [exRow3].length ∧
    ∃ fr, (compute_frequencies [exRow3]).get? 0 = some fr ∧
      fr.afs.length = exRow3.counts.length ∧
      fr.afs.get? 0 = some (pdiv 3 10) ∧
      (isFinitePF (pdiv 3 10) = false ↔ (10 : Int) = 0) ∧
      ((10 : Int) ≠ 0 → pdiv 3 10 = .num ((3 : ℚ) / (10 : ℚ))) :=
  compute_frequencies_correct [exRow3] 0 0 exRow3 ⟨5, 10, 3⟩ (by decide) (by decide)

/-- C5: `extract_first_ann` returns `none` when `ANN=` does not occur in
the attribute bag; when it does occur, with `am` the suffix after the first
occurrence, the result is `none` when the first entry has fewer than 4
pipe-separated sub-fields, and otherwise exactly the record of sub-fields
0-3 of the first entry, every later sub-field ignored. -/
theorem extract_first_ann_spec (info : List Char) :
    (dropAfterSeq (cl "ANN=") info = none → extract_first_ann info = none) ∧
    (∀ am, dropAfterSeq (cl "ANN=") info = some am →
      ((annFieldsOf am).length < 4 → extract_first_ann info = none) ∧
      (∀ a b c d rest, annFieldsOf am = a :: b :: c :: d :: rest →
        extract_first_ann info = some ⟨a, b, c, d⟩)) := by
  refine ⟨fun h => ?_, fun am ham => ⟨fun hlen => ?_, fun a b c d rest hf => ?_⟩⟩
  · simp [extract_first_ann, h]
  · simp only [extract_first_ann, ham]
    exact firstAnnRecord_short hlen
  · simp only [extract_first_ann, ham, hf]
    rfl

theorem extract_first_ann_spec_witness :
    extract_first_ann (cl "DP=50") = none ∧
    extract_first_ann (cl "ANN=A|m") = none ∧
    extract_first_ann (cl "X=1;ANN=A|missense_variant|MODERATE|geneX|extra;Y=2") =
      some ⟨cl "A", cl "missense_variant", cl "MODERATE", cl "geneX"⟩ :=
  ⟨(extract_first_ann_spec (cl "DP=50")).1 (by decide),
   ((extract_first_ann_spec (cl "ANN=A|m")).2 (cl "A|m") (by decide)).1 (by decide),
   ((extract_first_ann_spec (cl "X=1;ANN=A|missense_variant|MODERATE|geneX|extra;Y=2")).2
     (cl "A|missense_variant|MODERATE|geneX|extra;Y=2") (by decide)).2
     (cl "A") (cl "missense_variant") (cl "MODERATE") (cl "geneX") [cl "extra"] (by decide)⟩

/-- Helper: the expansion call fails with the descriptive `ValueError`
when the first row's FORMAT value lacks any of RO, AO, DP. -/
theorem expand_error_of_missing (df : List VcfRow) (r0 : VcfRow)
    (h0 : df.head? = some r0)
    (hmiss : find_index r0.format (cl "RO") = none ∨
             find_index r0.format (cl "AO") = none ∨
             find_index r0.format (cl "DP") = none) :
    expand_multiallelic_variants df =
      .error (.valueError "RO, AO, or DP field not found in FORMAT column.") := by
  cases df with
  | nil => cases h0
  | cons r rs =>
    have hr : r = r0 := by simpa using h0
    subst hr
    simp only [expand_multiallelic_variants]
    have hb : pyIndex (r :: rs) 0 = .ok r := rfl
    rw [hb]
    simp only [Bind.bind, Except.bind]
    cases hro : find_index r.format (cl "RO") with
    | none =>
      cases hao : find_index r.format (cl "AO") <;>
        cases hdp : find_index r.format (cl "DP") <;> rfl
    | some ro =>
      cases hao : find_index r.format (cl "AO") with
      | none => cases hdp : find_index r.format (cl "DP") <;> rfl
      | some ao =>
        cases hdp : find_index r.format (cl "DP") with
        | none => rfl
        | some dp => rcases hmiss with h | h | h <;> simp_all

/-- C6: when the input table's format-descriptor lacks any of the three
required fields RO, AO or DP, `expand_multiallelic_variants` fails with
the descriptive data-format `ValueError` — an `error` result of the
`Except`, so it fails before emitting any output row and the error is
fatal to the whole call. -/
theorem expand_missing_format_field (df : List VcfRow) (r0 : VcfRow)
    (h0 : df.head? = some r0)
    (hmiss : find_index r0.format (cl "RO") = none ∨
             find_index r0.format (cl "AO") = none ∨
             find_index r0.format (cl "DP") = none) :
    expand_multiallelic_variants df =
      .error (.valueError "RO, AO, or DP field not found in FORMAT column.") :=
  expand_error_of_missing df r0 h0 hmiss

/-- Row with a FORMAT value lacking RO/AO/DP, for the C6 witness. -/
def vcfRow6 : VcfRow :=
  ⟨"chr1", "100", ".", "G", cl "A", "50", "PASS", cl "TYPE=snp",
   cl "GT:AD", [cl "0/1:5,3"]⟩

theorem expand_missing_format_field_witness :
    expand_multiallelic_variants [vcfRow6] =
      .error (.valueError "RO, AO, or DP field not found in FORMAT column.") :=
  expand_missing_format_field [vcfRow6] vcfRow6 (by decide) (Or.inl (by decide))

/-- A file whose lines never start with `#CHROM`. -/
def headerlessLines : List (List Char) :=
  [cl "##fileformat=VCFv4.2",
   cl "chrom1\t100\t.\tG\tA\t50\tPASS\tTYPE=snp\tRO:AO:DP\t5:3:10"]

/-- C7 counterexample: on a file with no `#CHROM` line, `read_vcf` fails
with the unbound-variable error (`header` is never assigned), which is not
the data-format `ValueError` the claim asserts. -/
theorem read_vcf_no_header_counterexample :
    read_vcf headerlessLines = .error PyError.nameError ∧
    isDataFormatError PyError.nameError = false := by decide

/-- C7 as amended: for every input whose lines never start with `#CHROM`,
`read_vcf` fails — with the unbound-local-variable error, not a
data-format error — and never proceeds with guessed column identities. -/
theorem read_vcf_no_header (lines : List (List Char))
    (h : ∀ l ∈ lines, (cl "#CHROM").isPrefixOf l = false) :
    read_vcf lines = .error .nameError := by
  have hf : lines.find? (fun l => (cl "#CHROM").isPrefixOf l) = none :=
    List.find?_eq_none.mpr (fun l hl => by simp [h l hl])
  simp [read_vcf, hf]

theorem read_vcf_no_header_witness :
    read_vcf headerlessLines = .error PyError.nameError :=
  read_vcf_no_header headerlessLines (by decide)

/-- C10: annotation detection is substring search: whenever `ANN=` occurs —
here as the tail of the longer key `MEANN=` — extraction proceeds from that
first occurrence, producing a record (or `none` exactly when the first
entry has fewer than 4 pipe fields) although no attribute is keyed `ANN`. -/
theorem extract_first_ann_substring_detection (rest : List Char) :
    dropAfterSeq (cl "ANN=") (cl "DP=50;MEANN=" ++ rest) = some rest ∧
    extract_first_ann (cl "DP=50;MEANN=" ++ rest) =
      extract_first_ann (cl "ANN=" ++ rest) ∧
    (extract_first_ann (cl "DP=50;MEANN=" ++ rest) = none ↔
      (annFieldsOf rest).length < 4) := by
  have h0 : cl "DP=50;MEANN=" ++ rest =
      'D' :: 'P' :: '=' :: '5' :: '0' :: ';' :: 'M' :: 'E' ::
        ('A' :: 'N' :: 'N' :: '=' :: rest) := rfl
  have h1 : dropAfterSeq (cl "ANN=") (cl "DP=50;MEANN=" ++ rest) = some rest := by
    rw [h0,
      dropAfterSeq_ann_step _ (by decide), dropAfterSeq_ann_step _ (by decide),
      dropAfterSeq_ann_step _ (by decide), dropAfterSeq_ann_step _ (by decide),
      dropAfterSeq_ann_step _ (by decide), dropAfterSeq_ann_step _ (by decide),
      dropAfterSeq_ann_step _ (by decide), dropAfterSeq_ann_step _ (by decide),
      dropAfterSeq_ann_here]
  have h2 : dropAfterSeq (cl "ANN=") (cl "ANN=" ++ rest) = some rest := by
    have he : cl "ANN=" ++ rest = 'A' :: 'N' :: 'N' :: '=' :: rest := rfl
    rw [he, dropAfterSeq_ann_here]
  refine ⟨h1, ?_, ?_⟩
  · simp only [extract_first_ann, h1, h2]
  · simp only [extract_first_ann, h1]
    exact firstAnnRecord_none_iff (annFieldsOf rest)

/-! ## Inversion lemmas for the expansion pipeline -/

theorem pyIndex_ok_mem {α : Type} {l : List α} {n : Nat} {a : α}
    (h : pyIndex l n = .ok a) : a ∈ l := by
  simp only [pyIndex] at h
  cases hg : l.get? n with
  | none => rw [hg] at h; cases h
  | some b => rw [hg] at h; cases h; exact List.get?_mem hg

theorem pyIndex_ok_get? {α : Type} {l : List α} {n : Nat} {a : α}
    (h : pyIndex l n = .ok a) : l.get? n = some a := by
  simp only [pyIndex] at h
  cases hg : l.get? n with
  | none => rw [hg] at h; cases h
  | some b => rw [hg] at h; cases h; rfl

/-- When the three indices are found in the first row's FORMAT, expansion
is the flattened concatenation of the per-row emissions. -/
theorem expand_eq_of_found {df : List VcfRow} {r0 : VcfRow} {ro ao dp : Nat}
    (h0 : df.head? = some r0)
    (hro : find_index r0.format (cl "RO") = some ro)
    (hao : find_index r0.format (cl "AO") = some ao)
    (hdp : find_index r0.format (cl "DP") = some dp) :
    expand_multiallelic_variants df =
      (mapE (expandRow ro ao dp) df) >>= (fun rows => pure rows.flatten) := by
  cases df with
  | nil => cases h0
  | cons r rs =>
    have hr : r = r0 := by simpa using h0
    subst hr
    simp only [expand_multiallelic_variants]
    have hb : pyIndex (r :: rs) 0 = .ok r := rfl
    rw [hb]
    simp only [Bind.bind, Except.bind, hro, hao, hdp]

theorem expand_ok_inv {df : List VcfRow} {out : List ExpandedRow}
    (h : expand_multiallelic_variants df = .ok out) :
    ∃ r0 rs ro ao dp rows,
      df = r0 :: rs ∧
      find_index r0.format (cl "RO") = some ro ∧
      find_index r0.format (cl "AO") = some ao ∧
      find_index r0.format (cl "DP") = some dp ∧
      mapE (expandRow ro ao dp) df = .ok rows ∧
      out = rows.flatten := by
  cases df with
  | nil => simp [expand_multiallelic_variants, pyIndex, Bind.bind, Except.bind] at h
  | cons r rs =>
    cases hro : find_index r.format (cl "RO") with
    | none => rw [expand_error_of_missing (r :: rs) r rfl (Or.inl hro)] at h; cases h
    | some ro =>
      cases hao : find_index r.format (cl "AO") with
      | none => rw [expand_error_of_missing (r :: rs) r rfl (Or.inr (Or.inl hao))] at h; cases h
      | some ao =>
        cases hdp : find_index r.format (cl "DP") with
        | none =>
          rw [expand_error_of_missing (r :: rs) r rfl (Or.inr (Or.inr hdp))] at h; cases h
        | some dp =>
          rw [expand_eq_of_found (show (r :: rs).head? = some r from rfl) hro hao hdp] at h
          obtain ⟨rows, hrows, hout⟩ := except_bind_ok h
          simp only [pure, Except.pure, Except.ok.injEq] at hout
          exact ⟨r, rs, ro, ao, dp, rows, rfl, hro, hao, hdp, hrows, hout.symm⟩

/-- A row whose TYPE list is as long as its ALT list emits exactly one
expanded row per alternate allele. -/
theorem expandRow_length {ro ao dp : Nat} {row : VcfRow} {l : List ExpandedRow}
    (hty : (infoTypes row.info).map List.length =
      .ok (splitOnChar ',' row.alt).length)
    (h : expandRow ro ao dp row = .ok l) :
    l.length = (splitOnChar ',' row.alt).length := by
  simp only [expandRow] at h
  obtain ⟨tys, htys, h2⟩ := except_bind_ok h
  have hlen : tys.length = (splitOnChar ',' row.alt).length := by
    rw [htys] at hty
    simpa [Except.map] using hty
  rw [mapE_ok_length h2, List.enum_length, List.length_zip, hlen, Nat.min_self]

theorem rows_length_sum {ro ao dp : Nat} :
    ∀ {dfl : List VcfRow} {rows : List (List ExpandedRow)},
      List.Forall₂ (fun row l => expandRow ro ao dp row = .ok l) dfl rows →
      typeAligned dfl →
      (rows.map List.length).sum =
        (dfl.map (fun r => (splitOnChar ',' r.alt).length)).sum := by
  intro dfl rows h
  induction h with
  | nil => intro _; rfl
  | cons hab _ ih =>
    intro hv
    simp only [List.map_cons, List.sum_cons]
    rw [expandRow_length (hv _ (List.mem_cons_self ..)) hab,
      ih (fun r hr => hv r (List.mem_cons_of_mem _ hr))]

/-- C1: for a valid table — every row's TYPE list exactly as long as its
comma-split ALT list, the spec's data-model invariant — a successful
expansion returns exactly one row per alternate allele: the output length
is the sum over input rows of the per-row alternate-allele count. -/
theorem expand_row_count_conservation (df : List VcfRow)
    (out : List ExpandedRow) (hvalid : typeAligned df)
    (hok : expand_multiallelic_variants df = .ok out) :
    out.length = (df.map (fun r => (splitOnChar ',' r.alt).length)).sum := by
  obtain ⟨r0, rs, ro, ao, dp, rows, hdf, hro, hao, hdp, hrows, hout⟩ :=
    expand_ok_inv hok
  subst hdf hout
  rw [List.length_flatten]
  exact rows_length_sum (mapE_ok_forall₂ hrows) hvalid

/-- Two-alternate row of the spec's §8 example, for the C1 witness. -/
def vcfRowM : VcfRow :=
  ⟨"chr1", "100", ".", "G", cl "A,T", "50", "PASS",
   cl "DP=10;TYPE=snp,ins", cl "RO:AO:DP", [cl "5:3,2:10"]⟩

/-- Single-alternate row, for the C1 witness. -/
def vcfRowS : VcfRow :=
  ⟨"chr1", "200", ".", "C", cl "T", "60", "PASS",
   cl "DP=12;TYPE=snp", cl "RO:AO:DP", [cl "7:4:12"]⟩

/-- Expansion of `[vcfRowM, vcfRowS]`: three rows (2 + 1). -/
def outMS : List ExpandedRow :=
  [⟨"chr1", "100", "G", cl "A", cl "snp", [⟨5, 10, 3⟩]⟩,
   ⟨"chr1", "100", "G", cl "T", cl "ins", [⟨5, 10, 2⟩]⟩,
   ⟨"chr1", "200", "C", cl "T", cl "snp", [⟨7, 12, 4⟩]⟩]

theorem expand_row_count_conservation_witness :
    outMS.length =
      (([vcfRowM, vcfRowS]).map (fun r => (splitOnChar ',' r.alt).length)).sum :=
  expand_row_count_conservation [vcfRowM, vcfRowS] outMS
    (by unfold typeAligned; decide) (by decide)

/-- First row for the C2 analysis: FORMAT `RO:AO:DP`, sample `5:3:10`. -/
def vcfRowFmt1 : VcfRow :=
  ⟨"chr1", "100", ".", "G", cl "A", "50", "PASS", cl "TYPE=snp",
   cl "RO:AO:DP", [cl "5:3:10"]⟩

/-- Second row for the C2 analysis: FORMAT `DP:AO:RO`, sample `10:3:5`,
so under that row's own layout RO = 5, AO = 3, DP = 10. -/
def vcfRowFmt2 : VcfRow :=
  ⟨"chr1", "200", ".", "C", cl "T", "50", "PASS", cl "TYPE=snp",
   cl "DP:AO:RO", [cl "10:3:5"]⟩

/-- C2 counterexample: on a table whose second row orders the FORMAT
fields differently (`DP:AO:RO`), the second expanded row's counts are
`RO = 10, DP = 5` — the values sitting at the *first* row's positions —
not the `RO = 5, DP = 10` that extraction at the row's own positions
(as the claim states) would give. -/
theorem expand_per_row_format_counterexample :
    expand_multiallelic_variants [vcfRowFmt1, vcfRowFmt2] =
      .ok [⟨"chr1", "100", "G", cl "A", cl "snp", [⟨5, 10, 3⟩]⟩,
           ⟨"chr1", "200", "C", cl "T", cl "snp", [⟨10, 5, 3⟩]⟩] ∧
    (⟨10, 5, 3⟩ : SampleCounts) ≠ ⟨5, 10, 3⟩ := by decide

theorem expandRow_congr {ro ao dp : Nat} {a b : VcfRow}
    (h : sameExceptFormat a b) :
    expandRow ro ao dp a = expandRow ro ao dp b := by
  obtain ⟨h1, h2, _, h4, h5, _, _, h8, h9⟩ := h
  simp only [expandRow, h1, h2, h4, h5, h8, h9]

/-- C2 as amended: the RO/AO/DP positions are derived once globally from
the *first* row's FORMAT value and applied to every row; consequently the
FORMAT values of all later rows are irrelevant: two tables that agree on
the first row's FORMAT and rowwise on every other column produce
identical expansions. -/
theorem expand_format_first_row_only (df df' : List VcfRow)
    (hfirst : df.head?.map VcfRow.format = df'.head?.map VcfRow.format)
    (hrows : List.Forall₂ sameExceptFormat df df') :
    expand_multiallelic_variants df = expand_multiallelic_variants df' := by
  cases df with
  | nil => cases hrows; rfl
  | cons a as =>
    cases df' with
    | nil => cases hrows
    | cons b bs =>
      have hf : a.format = b.format := by simpa using hfirst
      cases hro : find_index a.format (cl "RO") with
      | none =>
        rw [expand_error_of_missing (a :: as) a rfl (Or.inl hro),
          expand_error_of_missing (b :: bs) b rfl (Or.inl (hf ▸ hro))]
      | some ro =>
        cases hao : find_index a.format (cl "AO") with
        | none =>
          rw [expand_error_of_missing (a :: as) a rfl (Or.inr (Or.inl hao)),
            expand_error_of_missing (b :: bs) b rfl (Or.inr (Or.inl (hf ▸ hao)))]
        | some ao =>
          cases hdp : find_index a.format (cl "DP") with
          | none =>
            rw [expand_error_of_missing (a :: as) a rfl (Or.inr (Or.inr hdp)),
              expand_error_of_missing (b :: bs) b rfl (Or.inr (Or.inr (hf ▸ hdp)))]
          | some dp =>
            rw [expand_eq_of_found (show (a :: as).head? = some a from rfl) hro hao hdp,
              expand_eq_of_found (show (b :: bs).head? = some b from rfl)
                (hf ▸ hro) (hf ▸ hao) (hf ▸ hdp),
              mapE_congr (hrows.imp (fun _ _ h => expandRow_congr h))]

/-- `vcfRowFmt2` with its FORMAT replaced by the first row's: the amended
C2 theorem says the expansion cannot tell the difference. -/
def vcfRowFmt2' : VcfRow :=
  ⟨"chr1", "200", ".", "C", cl "T", "50", "PASS", cl "TYPE=snp",
   cl "RO:AO:DP", [cl "10:3:5"]⟩

theorem expand_format_first_row_only_witness :
    expand_multiallelic_variants [vcfRowFmt1, vcfRowFmt2] =
      expand_multiallelic_variants [vcfRowFmt1, vcfRowFmt2'] :=
  expand_format_first_row_only [vcfRowFmt1, vcfRowFmt2] [vcfRowFmt1, vcfRowFmt2']
    (by decide) (.cons (by unfold sameExceptFormat; decide)
      (.cons (by unfold sameExceptFormat; decide) .nil))

/-- Row whose INFO lacks `TYPE=`, for the C9 witness. -/
def vcfRowNoType : VcfRow :=
  ⟨"chr1", "300", ".", "G", cl "A", "50", "PASS", cl "DP=10",
   cl "RO:AO:DP", [cl "5:3:10"]⟩

/-- C9: `expand_multiallelic_variants` presupposes `TYPE=` in every row's
INFO.  A table containing a row whose INFO lacks `TYPE=` (all rows before
it expanding fine, the format-descriptor lookups succeeding) fails with
the bare `IndexError` of `split('TYPE=')[1]` — not the descriptive
data-format `ValueError`; and whenever `TYPE=` does occur in a row's
INFO, that indexing is in bounds: the TYPE-list computation returns a
value. -/
theorem expand_missing_type_index_error
    (pre rest : List VcfRow) (bad r0 : VcfRow) (ro ao dp : Nat)
    (okpre : List (List ExpandedRow))
    (h0 : (pre ++ bad :: rest).head? = some r0)
    (hro : find_index r0.format (cl "RO") = some ro)
    (hao : find_index r0.format (cl "AO") = some ao)
    (hdp : find_index r0.format (cl "DP") = some dp)
    (hpre : mapE (expandRow ro ao dp) pre = .ok okpre)
    (hbad : dropAfterSeq (cl "TYPE=") bad.info = none) :
    expand_multiallelic_variants (pre ++ bad :: rest) = .error .indexError ∧
    (∀ info suffix, dropAfterSeq (cl "TYPE=") info = some suffix →
      ∃ tys, infoTypes info = .ok tys) := by
  constructor
  · have hbadrow : expandRow ro ao dp bad = .error .indexError := by
      have hit : infoTypes bad.info = .error .indexError := by
        simp [infoTypes, hbad]
      simp [expandRow, hit, Bind.bind, Except.bind]
    rw [expand_eq_of_found h0 hro hao hdp,
      mapE_append_error hbadrow hpre rest]
    rfl
  · intro info suffix h
    exact ⟨splitOnChar ',' ((splitOnChar ';' (upToSeq (cl "TYPE=") suffix)).headD []),
      by simp [infoTypes, h]⟩

theorem expand_missing_type_index_error_witness :
    expand_multiallelic_variants [vcfRowNoType] = .error .indexError ∧
    (∀ info suffix, dropAfterSeq (cl "TYPE=") info = some suffix →
      ∃ tys, infoTypes info = .ok tys) :=
  expand_missing_type_index_error [] [] vcfRowNoType vcfRowNoType 0 1 2 []
    (by decide) (by decide) (by decide) (by decide) rfl (by decide)

/-! ## Normalization of per-sample counts (C4) -/

theorem tokValue_nonneg {tok : List Char} {v : Int}
    (hclean : cleanToken tok) (h : tokValue tok = .ok v) : 0 ≤ v := by
  unfold tokValue at h
  by_cases hdot : tok = cl "."
  · rw [if_pos hdot] at h
    cases h; decide
  · rw [if_neg hdot] at h
    exact cleanToken_pyInt_nonneg hclean h

theorem tokValue_dot : tokValue (cl ".") = .ok 0 := rfl

theorem aoValue_nonneg {ao_values : List (List Char)} {i : Nat} {v : Int}
    (hclean : ∀ sub ∈ ao_values, sub = cl "." ∨ (sub ≠ [] ∧ sub.all Char.isDigit))
    (h : aoValue ao_values i = .ok v) : 0 ≤ v := by
  unfold aoValue at h
  by_cases hlt : i < ao_values.length
  · rw [dif_pos hlt] at h
    by_cases hdot : ao_values.get ⟨i, hlt⟩ = cl "."
    · rw [if_pos hdot] at h
      cases h; decide
    · rw [if_neg hdot] at h
      rcases hclean _ (List.get_mem ..) with hdot2 | ⟨_, hdig⟩
      · exact absurd hdot2 hdot
      · exact pyInt_digits_nonneg hdig h
  · rw [dif_neg hlt] at h
    cases h; decide

theorem aoValue_dot {ao_values : List (List Char)} {i : Nat}
    (h : ao_values.get? i = some (cl ".")) : aoValue ao_values i = .ok 0 := by
  obtain ⟨hlt, hgeteq⟩ := List.get?_eq_some.mp h
  unfold aoValue
  rw [dif_pos hlt, if_pos hgeteq]
  rfl

theorem aoValue_oob {ao_values : List (List Char)} {i : Nat}
    (h : ao_values.length ≤ i) : aoValue ao_values i = .ok 0 := by
  unfold aoValue
  rw [dif_neg (by omega)]
  rfl

theorem sampleCounts_nonneg {ro_index ao_index dp_index i : Nat}
    {s : List Char} {c : SampleCounts} (hclean : cleanSample s)
    (h : sampleCounts ro_index ao_index dp_index i s = .ok c) :
    0 ≤ c.ro ∧ 0 ≤ c.dp ∧ 0 ≤ c.ao := by
  simp only [sampleCounts] at h
  obtain ⟨roTok, hro, h⟩ := except_bind_ok h
  obtain ⟨roV, hroV, h⟩ := except_bind_ok h
  obtain ⟨dpTok, hdp, h⟩ := except_bind_ok h
  obtain ⟨dpV, hdpV, h⟩ := except_bind_ok h
  obtain ⟨aoTok, hao, h⟩ := except_bind_ok h
  obtain ⟨aoV, haoV, h⟩ := except_bind_ok h
  have hc : c = ⟨roV, dpV, aoV⟩ := by
    simpa [pure, Except.pure] using h.symm
  subst hc
  have hcleanAo : ∀ sub ∈ splitOnChar ',' aoTok,
      sub = cl "." ∨ (sub ≠ [] ∧ sub.all Char.isDigit) :=
    hclean _ (pyIndex_ok_mem hao)
  exact ⟨tokValue_nonneg (hclean _ (pyIndex_ok_mem hro)) hroV,
    tokValue_nonneg (hclean _ (pyIndex_ok_mem hdp)) hdpV,
    aoValue_nonneg hcleanAo haoV⟩

theorem sampleCounts_missing_zero {ro_index ao_index dp_index i : Nat}
    {s : List Char} {c : SampleCounts}
    (h : sampleCounts ro_index ao_index dp_index i s = .ok c) :
    ((splitOnChar ':' s).get? ro_index = some (cl ".") → c.ro = 0) ∧
    ((splitOnChar ':' s).get? dp_index = some (cl ".") → c.dp = 0) ∧
    (∀ aoTok, (splitOnChar ':' s).get? ao_index = some aoTok →
      ((splitOnChar ',' aoTok).get? i = some (cl ".") → c.ao = 0) ∧
      ((splitOnChar ',' aoTok).length ≤ i → c.ao = 0)) := by
  simp only [sampleCounts] at h
  obtain ⟨roTok, hro, h⟩ := except_bind_ok h
  obtain ⟨roV, hroV, h⟩ := except_bind_ok h
  obtain ⟨dpTok, hdp, h⟩ := except_bind_ok h
  obtain ⟨dpV, hdpV, h⟩ := except_bind_ok h
  obtain ⟨aoTok, hao, h⟩ := except_bind_ok h
  obtain ⟨aoV, haoV, h⟩ := except_bind_ok h
  have hc : c = ⟨roV, dpV, aoV⟩ := by
    simpa [pure, Except.pure] using h.symm
  subst hc
  refine ⟨fun hget => ?_, fun hget => ?_, fun aoTok0 hget => ?_⟩
  · have heq : roTok = cl "." := by
      have hg := pyIndex_ok_get? hro
      rw [hget] at hg
      exact (Option.some.inj hg).symm
    rw [heq, tokValue_dot] at hroV
    cases hroV; rfl
  · have heq : dpTok = cl "." := by
      have hg := pyIndex_ok_get? hdp
      rw [hget] at hg
      exact (Option.some.inj hg).symm
    rw [heq, tokValue_dot] at hdpV
    cases hdpV; rfl
  · have heq : aoTok = aoTok0 := by
      have hg := pyIndex_ok_get? hao
      rw [hget] at hg
      exact (Option.some.inj hg).symm
    subst heq
    refine ⟨fun hdot => ?_, fun hoob => ?_⟩
    · rw [aoValue_dot hdot] at haoV
      cases haoV; rfl
    · rw [aoValue_oob hoob] at haoV
      cases haoV; rfl

/-- On a clean table, every count of every expanded row is non-negative. -/
theorem expand_counts_nonneg {df : List VcfRow} {out : List ExpandedRow}
    (hclean : cleanTable df)
    (hok : expand_multiallelic_variants df = .ok out) :
    ∀ er ∈ out, ∀ c ∈ er.counts, 0 ≤ c.ro ∧ 0 ≤ c.dp ∧ 0 ≤ c.ao := by
  obtain ⟨r0, rs, ro, ao, dp, rows, hdf, _, _, _, hrows, hout⟩ := expand_ok_inv hok
  subst hdf hout
  intro er her c hc
  obtain ⟨l, hl, herl⟩ := List.mem_flatten.mp her
  obtain ⟨row, hrow, hexp⟩ := mapE_mem hrows l hl
  simp only [expandRow] at hexp
  obtain ⟨tys, htys, h2⟩ := except_bind_ok hexp
  obtain ⟨p, hp, hper⟩ := mapE_mem h2 er herl
  obtain ⟨counts, hcounts, hpure⟩ := except_bind_ok hper
  have her2 : er = ⟨row.chrom, row.pos, row.ref, p.2.1, p.2.2, counts⟩ := by
    simpa [pure, Except.pure] using hpure.symm
  rw [her2] at hc
  obtain ⟨s, hs, hsc⟩ := mapE_mem hcounts c hc
  exact sampleCounts_nonneg (hclean row hrow s hs) hsc

/-- C4: on a clean table (every sample sub-field a digit string or the
missing token `"."`, the shape of a well-formed VCF), every expanded row's
reference count, total depth and alternate count are non-negative
integers; and unconditionally, a literal `"."` sub-field maps to 0 and an
alternate-count index beyond the end of the comma-split AO list maps to 0,
never to an error. -/
theorem expand_counts_normalized (df : List VcfRow) (out : List ExpandedRow)
    (hclean : cleanTable df)
    (hok : expand_multiallelic_variants df = .ok out) :
    (∀ er ∈ out, ∀ c ∈ er.counts, 0 ≤ c.ro ∧ 0 ≤ c.dp ∧ 0 ≤ c.ao) ∧
    (∀ ro_index ao_index dp_index i s c,
      sampleCounts ro_index ao_index dp_index i s = .ok c →
      ((splitOnChar ':' s).get? ro_index = some (cl ".") → c.ro = 0) ∧
      ((splitOnChar ':' s).get? dp_index = some (cl ".") → c.dp = 0) ∧
      (∀ aoTok, (splitOnChar ':' s).get? ao_index = some aoTok →
        ((splitOnChar ',' aoTok).get? i = some (cl ".") → c.ao = 0) ∧
        ((splitOnChar ',' aoTok).length ≤ i → c.ao = 0))) :=
  ⟨expand_counts_nonneg hclean hok,
   fun _ _ _ _ _ _ h => sampleCounts_missing_zero h⟩

theorem expand_counts_normalized_witness :
    (0 ≤ (⟨5, 10, 3⟩ : SampleCounts).ro ∧ 0 ≤ (⟨5, 10, 3⟩ : SampleCounts).dp ∧
      0 ≤ (⟨5, 10, 3⟩ : SampleCounts).ao) ∧
    (⟨0, 10, 0⟩ : SampleCounts).ro = 0 ∧ (⟨0, 10, 0⟩ : SampleCounts).ao = 0 := by
  have hmain := expand_counts_normalized [vcfRowFmt1]
    [⟨"chr1", "100", "G", cl "A", cl "snp", [⟨5, 10, 3⟩]⟩]
    (by unfold cleanTable cleanSample cleanToken; decide) (by decide)
  have hmz := hmain.2 0 1 2 5 (cl ".:3,2:10") ⟨0, 10, 0⟩ (by decide)
  exact ⟨hmain.1 ⟨"chr1", "100", "G", cl "A", cl "snp", [⟨5, 10, 3⟩]⟩ (by decide)
      ⟨5, 10, 3⟩ (by decide),
    hmz.1 (by decide), (hmz.2.2 (cl "3,2") (by decide)).2 (by decide)⟩

/-- Input row carrying an annotation, for the C8 witness. -/
def infoRowAnn : InfoRow := ⟨["chr1"], cl "ANN=A|missense|MODERATE|geneX|x"⟩

/-- C8: `add_ann_info_to_df` only adds the four annotation columns: the
output has exactly one row per input row, in the same order, each keeping
its pre-existing column values unchanged; a row whose attribute bag yields
no annotation has the explicit `none` in all four new columns, and a row
with an annotation gets exactly that annotation's four fields. -/
theorem add_ann_info_frame (df : List InfoRow) (j : Nat) (r : InfoRow)
    (hj : df.get? j = some r) :
    (add_ann_info_to_df df).length = df.length ∧
    ∃ r', (add_ann_info_to_df df).get? j = some r' ∧
      r'.other = r.other ∧ r'.info = r.info ∧
      (extract_first_ann r.info = none →
        r'.variant_type = none ∧ r'.impact = none ∧
        r'.gene_id = none ∧ r'.allele = none) ∧
      (∀ a, extract_first_ann r.info = some a →
        r'.variant_type = some a.vtype ∧ r'.impact = some a.impact ∧
        r'.gene_id = some a.gene_id ∧ r'.allele = some a.allele) := by
  refine ⟨List.length_map .., ?_⟩
  cases hann : extract_first_ann r.info with
  | none =>
    refine ⟨⟨r.other, r.info, none, none, none, none⟩, ?_, rfl, rfl,
      fun _ => ⟨rfl, rfl, rfl, rfl⟩, fun a ha => ?_⟩
    · rw [add_ann_info_to_df, List.get?_map, hj]
      simp [hann]
    · cases ha
  | some a0 =>
    refine ⟨⟨r.other, r.info, some a0.vtype, some a0.impact,
      some a0.gene_id, some a0.allele⟩, ?_, rfl, rfl, fun hn => ?_, fun a ha => ?_⟩
    · rw [add_ann_info_to_df, List.get?_map, hj]
      simp [hann]
    · cases hn
    · cases ha
      exact ⟨rfl, rfl, rfl, rfl⟩

theorem add_ann_info_frame_witness :
    (add_ann_info_to_df [infoRowAnn]).length = [infoRowAnn].length ∧
    add_ann_info_to_df [infoRowAnn] =
      [⟨["chr1"], infoRowAnn.info, some (cl "missense"), some (cl "MODERATE"),
        some (cl "geneX"), some (cl "A")⟩] :=
  ⟨(add_ann_info_frame [infoRowAnn] 0 infoRowAnn (by decide)).1, by decide⟩
